import Mathlib

/- Verification of the Qlik QVS script generator
   (src/qlik_script_generator.py, function `generate_das_qvs`).

   The generator is a pure text transformation: it reads a YAML schema
   (a mapping of table name to table definition), classifies each table's
   columns into four buckets, sorts each bucket by name, and emits one
   fixed-shape script block per table under a fixed header, joined with
   newlines into a single output string.

   The embedding below models Python strings as Lean `String` (a list of
   characters), and the YAML mappings the generator iterates over as
   association lists kept in insertion order.  Every definition mirrors the
   corresponding lines of the source; line numbers cited in doc comments
   refer to src/qlik_script_generator.py. -/

/-- A column definition: the generator only reads the optional
    `description` key (lines 158-162); all other keys are ignored. -/
structure ColumnInfo where
  description : Option String
deriving DecidableEq

/-- A table definition: an optional `columns` mapping (insertion-ordered
    association list) and an optional `description` (lines 112, 222). -/
structure TableInfo where
  columns : Option (List (String × ColumnInfo))
  description : Option String
deriving DecidableEq

/-- The schema document: an optional `tables` mapping (line 47). -/
structure SchemaData where
  tables : Option (List (String × TableInfo))
deriving DecidableEq

/-- Python `s.startswith(p)`. -/
def pyStartsWith (p s : String) : Bool := decide (p.data <+: s.data)

/-- Python `s.endswith(p)`. -/
def pyEndsWith (p s : String) : Bool := decide (p.data <:+ s.data)

/-- Python `needle in hay`: substring containment. -/
def pyContains (needle hay : String) : Bool := decide (needle.data <:+: hay.data)

/-- One scanning pass of Python `str.split(sep)` for a non-empty separator:
    leftmost, non-overlapping matches.  `fuel` bounds the recursion and is
    instantiated with the length of the scanned text, which each step
    consumes at least one character of, so the fuel never runs out. -/
def pySplitGo (sep : List Char) : Nat → List Char → List Char → List (List Char)
  | 0, cs, acc => [acc.reverse ++ cs]
  | _ + 1, [], acc => [acc.reverse]
  | fuel + 1, c :: rest, acc =>
    if sep.isPrefixOf (c :: rest) then
      acc.reverse :: pySplitGo sep fuel (List.drop sep.length (c :: rest)) []
    else
      pySplitGo sep fuel rest (c :: acc)

/-- Python `s.split(sep)` for a non-empty separator. -/
def pySplit (sep s : List Char) : List (List Char) :=
  pySplitGo sep s.length s []

/-- `entity_name = table_name.split('__')[-1]` (line 50). -/
def entityName (tableName : String) : String :=
  ⟨(pySplit "__".data tableName.data).getLastD []⟩

/-- Python `desc.replace("'", "$(=Chr39())")` (lines 161 and 225).  The
    needle is the single-quote character, so the replacement rewrites each
    character of the text independently. -/
def escapeQuotes (s : String) : String :=
  ⟨s.data.flatMap fun ch => if ch = '\'' then "$(=Chr39())".data else [ch]⟩

/-- `column_name.startswith('_dlt_')` (line 121). -/
def isDltColumn (c : String) : Bool := pyStartsWith "_dlt_" c

/-- `column_name in ['rowguid', 'modified_date']` (line 123). -/
def isSystemColumn (c : String) : Bool := c == "rowguid" || c == "modified_date"

/-- `column_name.endswith('_id')` (lines 125 and 128). -/
def endsWithId (c : String) : Bool := pyEndsWith "_id" c

/-- The four category buckets filled by the classification loop
    (lines 113-117). -/
structure FieldCats where
  primary_keys : List (String × ColumnInfo)
  foreign_keys : List (String × ColumnInfo)
  regular_fields : List (String × ColumnInfo)
  system_fields : List (String × ColumnInfo)
deriving DecidableEq

/-- The classification loop (lines 120-133): one pass over the columns in
    insertion order; each non-`_dlt_` column is appended to exactly one
    bucket, `_dlt_`-prefixed columns are skipped. -/
def categorizeFields (entity : String) : List (String × ColumnInfo) → FieldCats
  | [] => ⟨[], [], [], []⟩
  | ci :: rest =>
    let r := categorizeFields entity rest
    if isDltColumn ci.1 then r
    else if isSystemColumn ci.1 then { r with system_fields := ci :: r.system_fields }
    else if endsWithId ci.1 && pyContains entity ci.1 then
      { r with primary_keys := ci :: r.primary_keys }
    else if endsWithId ci.1 then { r with foreign_keys := ci :: r.foreign_keys }
    else { r with regular_fields := ci :: r.regular_fields }

/-- Python's code-point comparison of strings, as used by the
    `key=lambda x: x[0]` sorts (lines 136-139). -/
def charListLe : List Char → List Char → Bool
  | [], _ => true
  | _ :: _, [] => false
  | a :: as, b :: bs => if a = b then charListLe as bs else decide (a < b)

/-- The order on `(name, info)` pairs used by the four sorts: by name. -/
def colLe (a b : String × ColumnInfo) : Prop := charListLe a.1.data b.1.data = true

instance : DecidableRel colLe := fun a b => by unfold colLe; infer_instance

/-- `bucket.sort(key=lambda x: x[0])` (lines 136-139).  Python's sort is
    stable and sorts by the name key; insertion sort is stable for the same
    total preorder, so the two agree on every input. -/
def sortByName (l : List (String × ColumnInfo)) : List (String × ColumnInfo) :=
  List.insertionSort colLe l

/-- `sorted_columns = primary_keys + foreign_keys + regular_fields +
    system_fields` after the four in-place sorts (lines 136-142). -/
def sortedColumns (entity : String) (cols : List (String × ColumnInfo)) :
    List (String × ColumnInfo) :=
  sortByName (categorizeFields entity cols).primary_keys ++
    sortByName (categorizeFields entity cols).foreign_keys ++
    sortByName (categorizeFields entity cols).regular_fields ++
    sortByName (categorizeFields entity cols).system_fields

/-- The hash-field list (lines 145-150): `    [{column}]` with a trailing
    comma on every line but the last. -/
def hashFieldsOf : List (String × ColumnInfo) → List String
  | [] => []
  | [ci] => ["    [" ++ ci.1 ++ "]"]
  | ci :: ci' :: rest => ("    [" ++ ci.1 ++ "],") :: hashFieldsOf (ci' :: rest)

/-- The projection list (lines 152-156): `    Text([{column}]) As
    [{column}]` with the same trailing-comma rule. -/
def fieldLoadLinesOf : List (String × ColumnInfo) → List String
  | [] => []
  | [ci] => ["    Text([" ++ ci.1 ++ "]) As [" ++ ci.1 ++ "]"]
  | ci :: ci' :: rest =>
    ("    Text([" ++ ci.1 ++ "]) As [" ++ ci.1 ++ "],") :: fieldLoadLinesOf (ci' :: rest)

/-- One field comment (line 162). -/
def fieldCommentLine (c desc : String) : String :=
  "Comment Field [" ++ c ++ "] With '" ++ escapeQuotes desc ++ "';"

/-- The field-comment lines (lines 158-162), in sorted-column order,
    kept only for columns that carry a description. -/
def fieldCommentsOf (l : List (String × ColumnInfo)) : List String :=
  l.filterMap fun ci => ci.2.description.map fun d => fieldCommentLine ci.1 d

/-- The table comment line (line 226), indented inside the If block. -/
def tableCommentLine (t desc : String) : String :=
  "    Comment Table [" ++ t ++ "] With '" ++ escapeQuotes desc ++ "';"

/-- `sorted_columns` for a table, honouring the `'columns' in table_info`
    guard (line 112): absent columns leave the derived lists empty. -/
def sortedColumnsOf (tableName : String) (ti : TableInfo) :
    List (String × ColumnInfo) :=
  match ti.columns with
  | none => []
  | some cols => sortedColumns (entityName tableName) cols

/-- The 63-character rule of equals signs in the header (lines 40 and 43,
    a literal of 63 `=` characters in the source). -/
def eqRuleLine : String := ⟨List.replicate 63 '='⟩

/-- Lines 38-44: the fixed output header. -/
def headerLines : List String :=
  ["Trace",
   eqRuleLine,
   "    DATA ACCORDING TO SYSTEM",
   "    Script generated by Qlik Script Generator",
   eqRuleLine,
   ";"]

/-- The dashed rule of the per-table banner (lines 57 and 59, a literal of
    63 `-` characters in the source). -/
def dashRuleLine : String := ⟨List.replicate 63 '-'⟩

/-- Lines 56-60: the per-table banner. -/
def tableBannerLines (t : String) : List String :=
  ["Trace", dashRuleLine, "    Extracting " ++ t, dashRuleLine, ";"]

/-- Lines 63-67: variable setup. -/
def varSetupLines (t : String) : List String :=
  ["Trace Setting variables...;",
   "Let val__qvd_target = '$(val__qvd_path__das)/" ++ t ++ ".qvd';",
   "Let val__target_qvd_exists = Not IsNull(QvdCreateTime('$(val__qvd_target)'));",
   "Let val__incremental_value = '1970-01-01';",
   ""]

/-- Lines 70-76: hash-table definition. -/
def hashTableDefLines : List String :=
  ["Trace Define hash table...;",
   "[processed_record_hashes]:",
   "Load",
   "    Null() As [old_record_hash]",
   "AutoGenerate 0",
   ";",
   ""]

/-- Lines 79-105: conditional historical load. -/
def historicalLoadLines : List String :=
  ["Trace Checking if target QVD exists...;",
   "If $(val__target_qvd_exists) Then",
   "    Trace Target found, loading hashes and max incremental value...;",
   "",
   "    Concatenate([processed_record_hashes])",
   "    Load",
   "        [record_hash] As [old_record_hash]",
   "",
   "    From",
   "        [$(val__qvd_target)] (qvd)",
   "    ;",
   "",
   "    [max_incremental_value]:",
   "    Load",
   "        Date(Max(Num#([modified_date])), 'YYYY-MM-DD') As [max_incremental_value]",
   "    From",
   "        [$(val__qvd_target)] (qvd)",
   "    ;",
   "",
   "    Let val__incremental_value = Coalesce(Peek('max_incremental_value', -1, 'max_incremental_value'), '$(val__incremental_value)');",
   "    Drop Table [max_incremental_value];",
   "",
   "Else",
   "    Trace Target not found, starting full load...;",
   "",
   "End If",
   ""]

/-- Lines 165-172: the load trace and the `Hash256` field list. -/
def hashCalcLines (hashFields : List String) : List String :=
  "Trace Loading new data with incremental value $(val__incremental_value)...;" ::
    "Set var__record_hash = Hash256(" :: (hashFields ++ [")", ";", ""])

/-- Lines 175-184: the outer load with change detection. -/
def tableLoadLines (t : String) : List String :=
  ["[" ++ t ++ "]:",
   "Load",
   "    *,",
   "    $(var__record_hash) As [record_hash],",
   "    Timestamp#('$(val__utc)', 'YYYY-MM-DD hh:mm:ss.ffffff') As [record_loaded_at]",
   "",
   "Where",
   "    Not Exists ([old_record_hash], $(var__record_hash))",
   ";",
   ""]

/-- Lines 187-196: the inner field load from the parquet source. -/
def fieldLoadSection (t : String) (loadLines : List String) : List String :=
  "Load" :: (loadLines ++
    ["",
     "From",
     "    [lib://OneDrive - mattias.thalen@two.se/Qlik/Analytical Data Storage System/data/das." ++ t ++ ".parquet] (parquet)",
     "",
     "Where",
     "    Date([modified_date], 'YYYY-MM-DD') >= Date#('$(val__incremental_value)', 'YYYY-MM-DD')",
     ";",
     ""])

/-- Lines 199-219: cleanup, record counting, and the append conditional. -/
def cleanupCountLines (t : String) : List String :=
  ["Trace Dropping hash table...;",
   "Drop Table [processed_record_hashes];",
   "",
   "Trace Counting new records...;",
   "Set val__no_of_new_records = Alt(NoOfRows('" ++ t ++ "'), 0);",
   "",
   "Trace Checking if there are new records...;",
   "If $(val__no_of_new_records) > 0 Then",
   "",
   "    Trace Checking if target QVD exists...;",
   "    If $(val__target_qvd_exists) Then",
   "        Trace Appending previously ingested data...;",
   "",
   "        Concatenate([" ++ t ++ "])",
   "        Load * From [$(val__qvd_target)] (qvd) Where Not Exists ([record_hash]);",
   "",
   "    Else",
   "        Trace Target not found, skipping append...;",
   "",
   "    End If",
   ""]

/-- Lines 222-227: the table comment, present only with a description. -/
def tableCommentSection (t : String) (ti : TableInfo) : List String :=
  match ti.description with
  | some d => ["    Trace Commenting table...;", tableCommentLine t d, ""]
  | none => []

/-- Lines 229-235: field comments, present only when the list is non-empty
    (Python `if field_comments:`). -/
def fieldCommentSection (comments : List String) : List String :=
  match comments with
  | [] => []
  | _ :: _ =>
    "    Trace Commenting fields...;" :: ((comments.map fun c => "    " ++ c) ++ [""])

/-- Lines 249-255: the per-table variable reset that ends every block. -/
def resetLines : List String :=
  ["Trace Resetting variables...;",
   "Let val__qvd_target = Null();",
   "Let val__target_qvd_exists = Null();",
   "Let val__incremental_value = Null();",
   "Let var__record_hash = Null();",
   "Let val__no_of_new_records = Null();",
   ""]

/-- Lines 238-255: store, the no-new-records branch, teardown, and the
    variable reset. -/
def storeResetLines (t : String) : List String :=
  ["    Trace Storing data...;",
   "    Store [" ++ t ++ "] Into [$(val__qvd_path__das)/" ++ t ++ ".qvd] (qvd);",
   "",
   "Else",
   "    Trace No new records loaded...;",
   "",
   "End If",
   "",
   "Trace Dropping table...;",
   "Drop Table [" ++ t ++ "];",
   ""] ++ resetLines

/-- Lines 52-255: one full table block, the chunks in source order. -/
def tableBlock (t : String) (ti : TableInfo) : List String :=
  tableBannerLines t ++ varSetupLines t ++ hashTableDefLines ++
    historicalLoadLines ++
    hashCalcLines (hashFieldsOf (sortedColumnsOf t ti)) ++
    tableLoadLines t ++
    fieldLoadSection t (fieldLoadLinesOf (sortedColumnsOf t ti)) ++
    cleanupCountLines t ++
    tableCommentSection t ti ++
    fieldCommentSection (fieldCommentsOf (sortedColumnsOf t ti)) ++
    storeResetLines t

/-- Lines 36-258: the whole output, header first, then one block per table
    in schema order (no blocks at all when the `tables` key is absent). -/
def outputLines (schema : SchemaData) : List String :=
  headerLines ++
    (match schema.tables with
     | none => []
     | some ts => ts.flatMap fun entry => tableBlock entry.1 entry.2)

/-- Python `'\n'.join(output)` (line 262). -/
def joinLines : List String → String
  | [] => ""
  | [l] => l
  | l :: l' :: rest => l ++ "\n" ++ joinLines (l' :: rest)

/-- The full text written to the output file (lines 260-262). -/
def outputText (schema : SchemaData) : String := joinLines (outputLines schema)

/- ### General helper lemmas -/

theorem suffix_append_left {α : Type} (a : List α) {l b : List α} (h : l <:+ b) :
    l <:+ a ++ b := by
  obtain ⟨t, rfl⟩ := h
  exact ⟨a ++ t, by simp⟩

theorem joinLines_append {l₁ l₂ : List String} (h₁ : l₁ ≠ []) (h₂ : l₂ ≠ []) :
    joinLines (l₁ ++ l₂) = joinLines l₁ ++ "\n" ++ joinLines l₂ := by
  induction l₁ with
  | nil => simp at h₁
  | cons a l₁ ih =>
    cases l₁ with
    | nil =>
      cases l₂ with
      | nil => simp at h₂
      | cons b l₂ => simp [joinLines]
    | cons a' l₁' =>
      have step := ih (List.cons_ne_nil _ _)
      calc joinLines ((a :: a' :: l₁') ++ l₂)
          = a ++ "\n" ++ joinLines ((a' :: l₁') ++ l₂) := rfl
        _ = a ++ "\n" ++ (joinLines (a' :: l₁') ++ "\n" ++ joinLines l₂) := by
              rw [step]
        _ = (a ++ "\n" ++ joinLines (a' :: l₁')) ++ "\n" ++ joinLines l₂ := by
              simp [String.append_assoc]
        _ = joinLines (a :: a' :: l₁') ++ "\n" ++ joinLines l₂ := rfl

/-- C3: for every schema document the output begins with the exact fixed
    header block, and when the `tables` key is absent the output is exactly
    the header — no table blocks at all. -/
theorem c3_header_always (s : SchemaData) :
    (outputLines s).take 6 = headerLines ∧
    (∃ rest, outputText s = joinLines headerLines ++ rest) ∧
    (s.tables = none → outputLines s = headerLines) := by
  refine ⟨List.take_left' rfl, ?_, fun h => by simp [outputLines, h]⟩
  have hsplit : ∃ blocks : List String, outputLines s = headerLines ++ blocks := by
    cases h : s.tables with
    | none => exact ⟨[], by simp [outputLines, h]⟩
    | some ts =>
      exact ⟨ts.flatMap fun entry => tableBlock entry.1 entry.2,
        by simp [outputLines, h]⟩
  obtain ⟨blocks, hb⟩ := hsplit
  rw [outputText, hb]
  cases blocks with
  | nil => exact ⟨"", by simp⟩
  | cons b bs =>
    exact ⟨"\n" ++ joinLines (b :: bs), by
      rw [joinLines_append (by simp [headerLines]) (by simp), String.append_assoc]⟩

/-- Witness for C3 at a schema with no `tables` key. -/
theorem c3_header_always_witness :
    outputLines ⟨none⟩ = headerLines :=
  (c3_header_always ⟨none⟩).2.2 rfl

/-- C4: the generator is deterministic — the output text is a pure
    function of the schema document alone (the embedding takes no other
    input and consults no runtime state), so byte-identical schema
    documents yield byte-identical output. -/
theorem c4_deterministic (s₁ s₂ : SchemaData) (h : s₁ = s₂) :
    outputText s₁ = outputText s₂ := by rw [h]

/-- Witness for C4 at a concrete schema document. -/
theorem c4_deterministic_witness :
    outputText ⟨some [("sales__order", ⟨none, none⟩)]⟩ =
      outputText ⟨some [("sales__order", ⟨none, none⟩)]⟩ :=
  c4_deterministic _ _ rfl

/-- C6: every table block ends with the reset suffix — the trace line and
    the five `Let ... = Null();` assignments (followed by the block's
    closing blank line) — so no per-table variable survives into the next
    block. -/
theorem c6_variable_reset (t : String) (ti : TableInfo) :
    resetLines <:+ tableBlock t ti := by
  refine ⟨tableBannerLines t ++ varSetupLines t ++ hashTableDefLines ++
    historicalLoadLines ++ hashCalcLines (hashFieldsOf (sortedColumnsOf t ti)) ++
    tableLoadLines t ++ fieldLoadSection t (fieldLoadLinesOf (sortedColumnsOf t ti)) ++
    cleanupCountLines t ++ tableCommentSection t ti ++
    fieldCommentSection (fieldCommentsOf (sortedColumnsOf t ti)) ++
    ["    Trace Storing data...;",
     "    Store [" ++ t ++ "] Into [$(val__qvd_path__das)/" ++ t ++ ".qvd] (qvd);",
     "",
     "Else",
     "    Trace No new records loaded...;",
     "",
     "End If",
     "",
     "Trace Dropping table...;",
     "Drop Table [" ++ t ++ "];",
     ""], ?_⟩
  simp [tableBlock, storeResetLines, List.append_assoc]

/-- The possible outcomes of the schema-load phase (lines 32-33): the file
    read can fail, the YAML parse can fail, or a schema document is
    produced. -/
inductive LoadOutcome where
  | ok (s : SchemaData)
  | readFailure
  | parseFailure
deriving DecidableEq

/-- The writes the run performs on the output file, as a function of the
    schema-load outcome: the single write happens at line 261-262, after
    the whole buffer is built, and the build phase (lines 36-258) is total
    in this embedding, so a failed load writes nothing. -/
def generatorWrites : LoadOutcome → List String
  | .ok s => [outputText s]
  | .readFailure => []
  | .parseFailure => []

/-- C7: the output file is written at most once, only at the very end and
    only from the fully built buffer; on any load failure nothing is
    written, leaving the output path untouched. -/
theorem c7_single_write (r : LoadOutcome) :
    (generatorWrites r).length ≤ 1 ∧
    (∀ s, r = .ok s → generatorWrites r = [outputText s]) ∧
    (r = .readFailure ∨ r = .parseFailure → generatorWrites r = []) := by
  cases r <;> simp [generatorWrites]

/-- Witness for C7: a parse failure writes nothing. -/
theorem c7_single_write_witness :
    generatorWrites .parseFailure = [] :=
  (c7_single_write .parseFailure).2.2 (Or.inr rfl)

/-- C8 as stated is false: the dashed-rule lines of the banner are exactly
    63 characters long, not 65. -/
theorem c8_counterexample :
    (tableBlock "sales__customer" ⟨none, none⟩).take 5 =
      ["Trace", dashRuleLine, "    Extracting sales__customer", dashRuleLine, ";"] ∧
    dashRuleLine.length = 63 ∧ dashRuleLine.length ≠ 65 := by
  exact ⟨rfl, by decide, by decide⟩

/-- C8 (amended): every table block starts with the banner — `Trace`, a
    dashed rule, `    Extracting {T}`, the same dashed rule, `;` — where
    the dashed rule is exactly 63 characters, all hyphens. -/
theorem c8_banner (t : String) (ti : TableInfo) :
    (∃ rest, tableBlock t ti =
      ["Trace", dashRuleLine, "    Extracting " ++ t, dashRuleLine, ";"] ++ rest) ∧
    dashRuleLine.length = 63 ∧ ∀ ch ∈ dashRuleLine.data, ch = '-' := by
  exact ⟨⟨_, rfl⟩, by decide, by decide⟩

/- ### Classification: filter characterization -/

/-- The primary-key condition of the elif chain (lines 121-127). -/
def isPkCol (entity : String) (ci : String × ColumnInfo) : Bool :=
  !isDltColumn ci.1 && !isSystemColumn ci.1 &&
    (endsWithId ci.1 && pyContains entity ci.1)

/-- The foreign-key condition (lines 121-130). -/
def isFkCol (entity : String) (ci : String × ColumnInfo) : Bool :=
  !isDltColumn ci.1 && !isSystemColumn ci.1 &&
    !(endsWithId ci.1 && pyContains entity ci.1) && endsWithId ci.1

/-- The regular-field condition (lines 121-133). -/
def isRegCol (entity : String) (ci : String × ColumnInfo) : Bool :=
  !isDltColumn ci.1 && !isSystemColumn ci.1 &&
    !(endsWithId ci.1 && pyContains entity ci.1) && !endsWithId ci.1

/-- The system-field condition (lines 121-124). -/
def isSysCol (ci : String × ColumnInfo) : Bool :=
  !isDltColumn ci.1 && isSystemColumn ci.1

/-- The classification loop keeps, in each bucket, exactly the columns
    satisfying that bucket's condition, in input order. -/
theorem categorizeFields_eq_filter (entity : String)
    (cols : List (String × ColumnInfo)) :
    categorizeFields entity cols =
      ⟨cols.filter (isPkCol entity), cols.filter (isFkCol entity),
       cols.filter (isRegCol entity), cols.filter isSysCol⟩ := by
  induction cols with
  | nil => rfl
  | cons ci rest ih =>
    simp only [categorizeFields, ih, List.filter_cons]
    cases h1 : isDltColumn ci.1 <;> cases h2 : isSystemColumn ci.1 <;>
      cases h3 : endsWithId ci.1 <;> cases h4 : pyContains entity ci.1 <;>
      simp [isPkCol, isFkCol, isRegCol, isSysCol, h1, h2, h3, h4]

/-- Membership in the primary-key bucket. -/
theorem mem_primary_iff (entity : String) (cols : List (String × ColumnInfo))
    (ci : String × ColumnInfo) :
    ci ∈ (categorizeFields entity cols).primary_keys ↔
      ci ∈ cols ∧ isPkCol entity ci = true := by
  rw [categorizeFields_eq_filter]; exact List.mem_filter

/-- Membership in the foreign-key bucket. -/
theorem mem_foreign_iff (entity : String) (cols : List (String × ColumnInfo))
    (ci : String × ColumnInfo) :
    ci ∈ (categorizeFields entity cols).foreign_keys ↔
      ci ∈ cols ∧ isFkCol entity ci = true := by
  rw [categorizeFields_eq_filter]; exact List.mem_filter

/-- Membership in the regular-field bucket. -/
theorem mem_regular_iff (entity : String) (cols : List (String × ColumnInfo))
    (ci : String × ColumnInfo) :
    ci ∈ (categorizeFields entity cols).regular_fields ↔
      ci ∈ cols ∧ isRegCol entity ci = true := by
  rw [categorizeFields_eq_filter]; exact List.mem_filter

/-- Membership in the system-field bucket. -/
theorem mem_system_iff (entity : String) (cols : List (String × ColumnInfo))
    (ci : String × ColumnInfo) :
    ci ∈ (categorizeFields entity cols).system_fields ↔
      ci ∈ cols ∧ isSysCol ci = true := by
  rw [categorizeFields_eq_filter]; exact List.mem_filter

/-- Membership in the sorted column list. -/
theorem mem_sortedColumns_iff (entity : String)
    (cols : List (String × ColumnInfo)) (ci : String × ColumnInfo) :
    ci ∈ sortedColumns entity cols ↔
      ci ∈ cols ∧ (isPkCol entity ci = true ∨ isFkCol entity ci = true ∨
        isRegCol entity ci = true ∨ isSysCol ci = true) := by
  have hperm : ∀ l : List (String × ColumnInfo), ci ∈ sortByName l ↔ ci ∈ l :=
    fun l => (List.perm_insertionSort colLe l).mem_iff
  rw [sortedColumns]
  simp only [List.mem_append, hperm, mem_primary_iff, mem_foreign_iff,
    mem_regular_iff, mem_system_iff]
  tauto

/-- Every column in the sorted list comes from the input columns. -/
theorem mem_of_mem_sortedColumns {entity : String}
    {cols : List (String × ColumnInfo)} {ci : String × ColumnInfo}
    (h : ci ∈ sortedColumns entity cols) : ci ∈ cols :=
  ((mem_sortedColumns_iff entity cols ci).mp h).1

/-- C1: every column of a table is classified into exactly one category,
    with the source's precedence: a `_dlt_`-prefixed column lands in no
    bucket at all (and never reaches the sorted column list feeding the
    hash list, the projection and the comments); otherwise `rowguid` /
    `modified_date` is a system field; otherwise a `_id`-suffixed column
    containing the entity name is a primary key; otherwise a
    `_id`-suffixed column is a foreign key; everything else is a regular
    field. -/
theorem c1_field_classification (entity : String)
    (cols : List (String × ColumnInfo)) (ci : String × ColumnInfo)
    (hmem : ci ∈ cols) :
    (isDltColumn ci.1 = true →
      ci ∉ (categorizeFields entity cols).primary_keys ∧
      ci ∉ (categorizeFields entity cols).foreign_keys ∧
      ci ∉ (categorizeFields entity cols).regular_fields ∧
      ci ∉ (categorizeFields entity cols).system_fields ∧
      ci ∉ sortedColumns entity cols) ∧
    (isDltColumn ci.1 = false → isSystemColumn ci.1 = true →
      ci ∈ (categorizeFields entity cols).system_fields ∧
      ci ∉ (categorizeFields entity cols).primary_keys ∧
      ci ∉ (categorizeFields entity cols).foreign_keys ∧
      ci ∉ (categorizeFields entity cols).regular_fields) ∧
    (isDltColumn ci.1 = false → isSystemColumn ci.1 = false →
      endsWithId ci.1 = true → pyContains entity ci.1 = true →
      ci ∈ (categorizeFields entity cols).primary_keys ∧
      ci ∉ (categorizeFields entity cols).foreign_keys ∧
      ci ∉ (categorizeFields entity cols).regular_fields ∧
      ci ∉ (categorizeFields entity cols).system_fields) ∧
    (isDltColumn ci.1 = false → isSystemColumn ci.1 = false →
      endsWithId ci.1 = true → pyContains entity ci.1 = false →
      ci ∈ (categorizeFields entity cols).foreign_keys ∧
      ci ∉ (categorizeFields entity cols).primary_keys ∧
      ci ∉ (categorizeFields entity cols).regular_fields ∧
      ci ∉ (categorizeFields entity cols).system_fields) ∧
    (isDltColumn ci.1 = false → isSystemColumn ci.1 = false →
      endsWithId ci.1 = false →
      ci ∈ (categorizeFields entity cols).regular_fields ∧
      ci ∉ (categorizeFields entity cols).primary_keys ∧
      ci ∉ (categorizeFields entity cols).foreign_keys ∧
      ci ∉ (categorizeFields entity cols).system_fields) := by
  refine ⟨fun h1 => ?_, fun h1 h2 => ?_, fun h1 h2 h3 h4 => ?_,
    fun h1 h2 h3 h4 => ?_, fun h1 h2 h3 => ?_⟩
  · exact ⟨by simp [mem_primary_iff, isPkCol, h1],
      by simp [mem_foreign_iff, isFkCol, h1],
      by simp [mem_regular_iff, isRegCol, h1],
      by simp [mem_system_iff, isSysCol, h1],
      by simp [mem_sortedColumns_iff, isPkCol, isFkCol, isRegCol, isSysCol, h1]⟩
  · exact ⟨(mem_system_iff _ _ _).mpr ⟨hmem, by simp [isSysCol, h1, h2]⟩,
      by simp [mem_primary_iff, isPkCol, h2],
      by simp [mem_foreign_iff, isFkCol, h2],
      by simp [mem_regular_iff, isRegCol, h2]⟩
  · exact ⟨(mem_primary_iff _ _ _).mpr ⟨hmem, by simp [isPkCol, h1, h2, h3, h4]⟩,
      by simp [mem_foreign_iff, isFkCol, h3, h4],
      by simp [mem_regular_iff, isRegCol, h3],
      by simp [mem_system_iff, isSysCol, h2]⟩
  · exact ⟨(mem_foreign_iff _ _ _).mpr ⟨hmem, by simp [isFkCol, h1, h2, h3, h4]⟩,
      by simp [mem_primary_iff, isPkCol, h4],
      by simp [mem_regular_iff, isRegCol, h3],
      by simp [mem_system_iff, isSysCol, h2]⟩
  · exact ⟨(mem_regular_iff _ _ _).mpr ⟨hmem, by simp [isRegCol, h1, h2, h3]⟩,
      by simp [mem_primary_iff, isPkCol, h3],
      by simp [mem_foreign_iff, isFkCol, h3],
      by simp [mem_system_iff, isSysCol, h2]⟩

/-- Witness for C1: in a table of entity `widget`, the `_dlt_`-prefixed
    column `_dlt_load_id` is excluded from every bucket and from the
    sorted column list, although it ends in `_id`. -/
theorem c1_field_classification_witness :
    ("_dlt_load_id", ColumnInfo.mk none) ∉
      (categorizeFields "widget"
        [("widget_id", ColumnInfo.mk none), ("order_id", ColumnInfo.mk none),
         ("_dlt_load_id", ColumnInfo.mk none), ("rowguid", ColumnInfo.mk none),
         ("name", ColumnInfo.mk none)]).primary_keys ∧
    ("_dlt_load_id", ColumnInfo.mk none) ∉
      (categorizeFields "widget"
        [("widget_id", ColumnInfo.mk none), ("order_id", ColumnInfo.mk none),
         ("_dlt_load_id", ColumnInfo.mk none), ("rowguid", ColumnInfo.mk none),
         ("name", ColumnInfo.mk none)]).foreign_keys ∧
    ("_dlt_load_id", ColumnInfo.mk none) ∉
      (categorizeFields "widget"
        [("widget_id", ColumnInfo.mk none), ("order_id", ColumnInfo.mk none),
         ("_dlt_load_id", ColumnInfo.mk none), ("rowguid", ColumnInfo.mk none),
         ("name", ColumnInfo.mk none)]).regular_fields ∧
    ("_dlt_load_id", ColumnInfo.mk none) ∉
      (categorizeFields "widget"
        [("widget_id", ColumnInfo.mk none), ("order_id", ColumnInfo.mk none),
         ("_dlt_load_id", ColumnInfo.mk none), ("rowguid", ColumnInfo.mk none),
         ("name", ColumnInfo.mk none)]).system_fields ∧
    ("_dlt_load_id", ColumnInfo.mk none) ∉
      sortedColumns "widget"
        [("widget_id", ColumnInfo.mk none), ("order_id", ColumnInfo.mk none),
         ("_dlt_load_id", ColumnInfo.mk none), ("rowguid", ColumnInfo.mk none),
         ("name", ColumnInfo.mk none)] :=
  (c1_field_classification "widget"
    [("widget_id", ColumnInfo.mk none), ("order_id", ColumnInfo.mk none),
     ("_dlt_load_id", ColumnInfo.mk none), ("rowguid", ColumnInfo.mk none),
     ("name", ColumnInfo.mk none)]
    ("_dlt_load_id", ColumnInfo.mk none) (by decide)).1 (by decide)

/- ### The sort order: totality and transitivity -/

theorem charListLe_total : ∀ as bs, charListLe as bs = true ∨ charListLe bs as = true
  | [], _ => Or.inl rfl
  | _ :: _, [] => Or.inr rfl
  | a :: as, b :: bs => by
    by_cases hab : a = b
    · subst hab
      rcases charListLe_total as bs with h | h
      · exact Or.inl (by simpa [charListLe] using h)
      · exact Or.inr (by simpa [charListLe] using h)
    · rcases Ne.lt_or_lt hab with h | h
      · exact Or.inl (by simp [charListLe, hab, h])
      · exact Or.inr (by simp [charListLe, Ne.symm hab, h])

theorem charListLe_trans : ∀ as bs cs, charListLe as bs = true →
    charListLe bs cs = true → charListLe as cs = true
  | [], _, _, _, _ => rfl
  | _ :: _, [], _, h₁, _ => by simp [charListLe] at h₁
  | _ :: _, _ :: _, [], _, h₂ => by simp [charListLe] at h₂
  | a :: as, b :: bs, c :: cs, h₁, h₂ => by
    by_cases hab : a = b <;> by_cases hbc : b = c
    · subst hab; subst hbc
      simp only [charListLe, if_pos rfl] at h₁ h₂ ⊢
      exact charListLe_trans as bs cs h₁ h₂
    · subst hab
      simpa [charListLe, hbc] using h₂
    · subst hbc
      simpa [charListLe, hab] using h₁
    · simp only [charListLe, if_neg hab] at h₁
      simp only [charListLe, if_neg hbc] at h₂
      have hac : a < c := lt_trans (of_decide_eq_true h₁) (of_decide_eq_true h₂)
      simp [charListLe, ne_of_lt hac, hac]

instance : IsTrans (String × ColumnInfo) colLe :=
  ⟨fun _ _ _ h₁ h₂ => charListLe_trans _ _ _ h₁ h₂⟩

instance : IsTotal (String × ColumnInfo) colLe :=
  ⟨fun a b => charListLe_total a.1.data b.1.data⟩

/-- The order on plain column names. -/
def nameLe (a b : String) : Prop := charListLe a.data b.data = true

/-- Rendering with a trailing comma on every entry but the last, the shape
    shared by the hash-field list and the projection list (lines 145-156). -/
def withCommas (f : String → String) : List String → List String
  | [] => []
  | [c] => [f c]
  | c :: c' :: rest => (f c ++ ",") :: withCommas f (c' :: rest)

theorem hashHead_append_comma (c : String) :
    "    [" ++ c ++ "]," = ("    [" ++ c ++ "]") ++ "," := by
  apply String.ext
  simp only [String.data_append, List.append_assoc]
  have h : ("]".data ++ ",".data : List Char) = "],".data := by decide
  rw [h]

theorem loadHead_append_comma (c : String) :
    "    Text([" ++ c ++ "]) As [" ++ c ++ "]," =
      ("    Text([" ++ c ++ "]) As [" ++ c ++ "]") ++ "," := by
  apply String.ext
  simp only [String.data_append, List.append_assoc]
  have h : ("]".data ++ ",".data : List Char) = "],".data := by decide
  rw [h]

theorem hashFieldsOf_eq_withCommas : ∀ l : List (String × ColumnInfo),
    hashFieldsOf l = withCommas (fun c => "    [" ++ c ++ "]") (l.map Prod.fst)
  | [] => rfl
  | [_] => rfl
  | ci :: ci' :: rest => by
    simp only [hashFieldsOf, List.map_cons, withCommas]
    rw [hashFieldsOf_eq_withCommas (ci' :: rest), hashHead_append_comma ci.1,
      List.map_cons]

theorem fieldLoadLinesOf_eq_withCommas : ∀ l : List (String × ColumnInfo),
    fieldLoadLinesOf l =
      withCommas (fun c => "    Text([" ++ c ++ "]) As [" ++ c ++ "]") (l.map Prod.fst)
  | [] => rfl
  | [_] => rfl
  | ci :: ci' :: rest => by
    simp only [fieldLoadLinesOf, List.map_cons, withCommas]
    rw [fieldLoadLinesOf_eq_withCommas (ci' :: rest), loadHead_append_comma ci.1,
      List.map_cons]

/-- Each sorted bucket is lexicographically sorted by name and is a
    permutation of the bucket it came from. -/
theorem sortByName_sorted_perm (bucket : List (String × ColumnInfo)) :
    List.Sorted nameLe ((sortByName bucket).map Prod.fst) ∧
      List.Perm (sortByName bucket) bucket := by
  constructor
  · have h := List.sorted_insertionSort colLe bucket
    exact List.pairwise_map.mpr h
  · exact List.perm_insertionSort colLe bucket

/-- C2: the hash-field list and the projection list are rendered from one
    identical column sequence — the sorted column list — which is the
    concatenation, in fixed order, of the primary-key, foreign-key,
    regular-field and system-field buckets, each bucket sorted
    lexicographically by name (sorting happens within buckets only). -/
theorem c2_shared_sorted_order (entity : String)
    (cols : List (String × ColumnInfo)) :
    ((sortedColumns entity cols).map Prod.fst =
      (sortByName (categorizeFields entity cols).primary_keys).map Prod.fst ++
      (sortByName (categorizeFields entity cols).foreign_keys).map Prod.fst ++
      (sortByName (categorizeFields entity cols).regular_fields).map Prod.fst ++
      (sortByName (categorizeFields entity cols).system_fields).map Prod.fst) ∧
    (∀ bucket : List (String × ColumnInfo),
      List.Sorted nameLe ((sortByName bucket).map Prod.fst) ∧
        List.Perm (sortByName bucket) bucket) ∧
    hashFieldsOf (sortedColumns entity cols) =
      withCommas (fun c => "    [" ++ c ++ "]")
        ((sortedColumns entity cols).map Prod.fst) ∧
    fieldLoadLinesOf (sortedColumns entity cols) =
      withCommas (fun c => "    Text([" ++ c ++ "]) As [" ++ c ++ "]")
        ((sortedColumns entity cols).map Prod.fst) :=
  ⟨by simp [sortedColumns], sortByName_sorted_perm,
    hashFieldsOf_eq_withCommas _, fieldLoadLinesOf_eq_withCommas _⟩

/- ### Quote escaping -/

/-- The escape replacement never leaves a single quote behind: the escape
    sequence itself contains none, and unescaped characters are not
    quotes. -/
theorem escapeQuotes_no_quote (d : String) :
    ∀ ch ∈ (escapeQuotes d).data, ch ≠ '\'' := by
  intro ch hch
  simp only [escapeQuotes, List.mem_flatMap] at hch
  obtain ⟨a, _, hin⟩ := hch
  by_cases h : a = '\''
  · rw [if_pos h] at hin
    have hseq : ∀ c ∈ "$(=Chr39())".data, c ≠ '\'' := by decide
    exact hseq ch hin
  · rw [if_neg h] at hin
    simp only [List.mem_singleton] at hin
    exact hin ▸ h

theorem flatMapEsc_id : ∀ l : List Char, (∀ ch ∈ l, ch ≠ '\'') →
    (l.flatMap fun ch => if ch = '\'' then "$(=Chr39())".data else [ch]) = l
  | [], _ => rfl
  | a :: l, h => by
    have ha : a ≠ '\'' := h a (List.mem_cons_self a l)
    rw [List.flatMap_cons, if_neg ha, List.singleton_append]
    exact congrArg (List.cons a)
      (flatMapEsc_id l fun ch hch => h ch (List.mem_cons_of_mem a hch))

/-- A quote-free text passes through the escape untouched. -/
theorem escapeQuotes_id {d : String} (h : ∀ ch ∈ d.data, ch ≠ '\'') :
    escapeQuotes d = d := by
  apply String.ext
  exact flatMapEsc_id d.data h

/-- C5: in both the field comment and the table comment, the description is
    emitted with every single quote replaced by the escape sequence
    `$(=Chr39())` (so the quoted text contains no raw quote at all; a
    quote-free description is emitted verbatim; `it's` becomes
    `it$(=Chr39())s`), and the emitted statement still ends in `;`. -/
theorem c5_comment_escaping (c d : String) :
    fieldCommentLine c d =
      "Comment Field [" ++ c ++ "] With '" ++ escapeQuotes d ++ "';" ∧
    tableCommentLine c d =
      "    Comment Table [" ++ c ++ "] With '" ++ escapeQuotes d ++ "';" ∧
    (∀ ch ∈ (escapeQuotes d).data, ch ≠ '\'') ∧
    ((∀ ch ∈ d.data, ch ≠ '\'') → escapeQuotes d = d) ∧
    pyEndsWith ";" (fieldCommentLine c d) = true ∧
    pyEndsWith ";" (tableCommentLine c d) = true ∧
    escapeQuotes "it's" = "it$(=Chr39())s" := by
  have hsemi : (";".data : List Char) = [';'] := rfl
  have hends : ∀ a : String, pyEndsWith ";" (a ++ "';") = true := by
    intro a
    apply decide_eq_true
    refine ⟨a.data ++ ['\''], ?_⟩
    rw [hsemi, String.data_append]
    have h : ("';".data : List Char) = ['\''] ++ [';'] := rfl
    rw [h, List.append_assoc]
  refine ⟨rfl, rfl, escapeQuotes_no_quote d, escapeQuotes_id, ?_, ?_, by decide⟩
  · exact hends ("Comment Field [" ++ c ++ "] With '" ++ escapeQuotes d)
  · exact hends ("    Comment Table [" ++ c ++ "] With '" ++ escapeQuotes d)

/-- Witness for C5: a quote-free description passes through unchanged. -/
theorem c5_comment_escaping_witness :
    escapeQuotes "Order header data" = "Order header data" :=
  (c5_comment_escaping "order_id" "Order header data").2.2.2.1 (by decide)

/- ### The entity name of a table whose name ends in the separator -/

theorem pySplitGo_nil_input (sep : List Char) (fuel : Nat) (acc : List Char) :
    pySplitGo sep fuel [] acc = [acc.reverse] := by
  cases fuel <;> simp [pySplitGo]

theorem pySplitGo_ne_nil (sep : List Char) : ∀ (fuel : Nat) (cs acc : List Char),
    pySplitGo sep fuel cs acc ≠ []
  | 0, _, _ => by simp [pySplitGo]
  | _ + 1, [], _ => by simp [pySplitGo]
  | fuel + 1, c :: rest, acc => by
    simp only [pySplitGo]
    split
    · simp
    · exact pySplitGo_ne_nil sep fuel rest (c :: acc)

theorem getLastD_of_ne_nil {α : Type} {l : List α} (h : l ≠ []) (d₁ d₂ : α) :
    l.getLastD d₁ = l.getLastD d₂ := by
  cases l with
  | nil => exact absurd rfl h
  | cons a l => rw [List.getLastD_cons, List.getLastD_cons]

/-- When the scanned text ends with the separator `__`, the final chunk of
    the split is empty or the single underscore left over from an
    overlapping match. -/
theorem pySplitGo_last_sep_suffix : ∀ (fuel : Nat) (cs acc : List Char),
    cs.length ≤ fuel → (['_', '_'] : List Char) <:+ cs →
    (pySplitGo ['_', '_'] fuel cs acc).getLastD [] = [] ∨
      (pySplitGo ['_', '_'] fuel cs acc).getLastD [] = ['_']
  | 0, cs, _, hlen, hsuf => by
    have hcs : cs = [] := List.length_eq_zero.mp (Nat.le_zero.mp hlen)
    subst hcs
    obtain ⟨t, ht⟩ := hsuf
    simp at ht
  | _ + 1, [], _, _, hsuf => by
    obtain ⟨t, ht⟩ := hsuf
    simp at ht
  | fuel + 1, c :: rest, acc, hlen, hsuf => by
    by_cases hpre : (['_', '_'] : List Char).isPrefixOf (c :: rest)
    · obtain ⟨t, ht⟩ := List.isPrefixOf_iff_prefix.mp hpre
      simp only [List.cons_append, List.nil_append] at ht
      injection ht with hc ht'
      subst hc
      subst ht'
      simp only [pySplitGo, if_pos hpre]
      have hdrop : List.drop (['_', '_'] : List Char).length ('_' :: '_' :: t) = t := rfl
      rw [hdrop, List.getLastD_cons,
        getLastD_of_ne_nil (pySplitGo_ne_nil _ fuel t []) acc.reverse []]
      cases t with
      | nil => rw [pySplitGo_nil_input]; left; rfl
      | cons x t' =>
        cases t' with
        | nil =>
          obtain ⟨s, hs⟩ := hsuf
          cases s with
          | nil =>
            have hl := congrArg List.length hs
            simp only [List.length_append, List.length_cons, List.length_nil] at hl
            omega
          | cons a s' =>
            cases s' with
            | nil =>
              simp only [List.cons_append, List.nil_append] at hs
              injection hs with h1 hs2
              injection hs2 with h2 hs3
              injection hs3 with h3 hs4
              subst h3
              cases fuel with
              | zero =>
                simp only [List.length_cons, List.length_nil] at hlen
                omega
              | succ f =>
                simp only [pySplitGo, if_neg (by decide :
                  ¬ (['_', '_'] : List Char).isPrefixOf ['_'])]
                rw [pySplitGo_nil_input]
                right; rfl
            | cons b s'' =>
              have hl := congrArg List.length hs
              simp only [List.length_append, List.length_cons, List.length_nil] at hl
              omega
        | cons y t'' =>
          obtain ⟨s, hs⟩ := hsuf
          cases s with
          | nil =>
            have hl := congrArg List.length hs
            simp only [List.length_append, List.length_cons, List.length_nil,
              List.nil_append] at hl
            omega
          | cons a s' =>
            cases s' with
            | nil =>
              have hl := congrArg List.length hs
              simp only [List.length_append, List.length_cons, List.length_nil] at hl
              omega
            | cons a' s'' =>
              simp only [List.cons_append, List.cons.injEq] at hs
              obtain ⟨-, -, hrest⟩ := hs
              have hlen' : (x :: y :: t'').length ≤ fuel := by
                simp only [List.length_cons] at hlen ⊢
                omega
              exact pySplitGo_last_sep_suffix fuel (x :: y :: t'') []
                hlen' ⟨s'', hrest⟩
    · simp only [pySplitGo, if_neg hpre]
      obtain ⟨s, hs⟩ := hsuf
      cases s with
      | nil =>
        simp only [List.nil_append] at hs
        rw [← hs] at hpre
        exact absurd (by decide) hpre
      | cons a s' =>
        simp only [List.cons_append, List.cons.injEq] at hs
        obtain ⟨-, hrest⟩ := hs
        have hlen' : rest.length ≤ fuel := by
          simp only [List.length_cons] at hlen
          omega
        exact pySplitGo_last_sep_suffix fuel rest (c :: acc) hlen' ⟨s', hrest⟩

/-- A table name ending in `__` yields the empty entity name, or a single
    underscore when the final separator overlaps an earlier match. -/
theorem entityName_of_sep_suffix {t : String} (h : pyEndsWith "__" t = true) :
    entityName t = "" ∨ entityName t = "_" := by
  have hsuf : ("__".data : List Char) <:+ t.data := of_decide_eq_true h
  have hsep : ("__".data : List Char) = ['_', '_'] := rfl
  rw [hsep] at hsuf
  have hmain := pySplitGo_last_sep_suffix t.data.length t.data [] (le_refl _) hsuf
  rcases hmain with h0 | h0
  · left
    apply String.ext
    show (pySplit "__".data t.data).getLastD [] = "".data
    rw [pySplit, hsep, h0]
  · right
    apply String.ext
    show (pySplit "__".data t.data).getLastD [] = "_".data
    rw [pySplit, hsep, h0]

/-- C10 fails as stated: `a___` ends with the separator `__`, yet its
    derived entity name is `_`, not the empty string — the final `__` is
    consumed only partially because Python's split matches leftmost
    occurrences first (`'a___'.split('__') == ['a', '_']`). -/
theorem c10_counterexample :
    pyEndsWith "__" "a___" = true ∧
    entityName "a___" = "_" ∧ entityName "a___" ≠ "" := by
  exact ⟨by decide, by decide, by decide⟩

/-- C10 (amended): for every table whose name ends with the separator
    `__`, the derived entity name is the empty string or a single
    underscore; in both cases it is a substring of every column name
    ending in `_id`, so every non-system, non-`_dlt_` column ending in
    `_id` is classified as a primary key, and the table has no
    foreign-key columns at all. -/
theorem c10_amended (t : String) (h : pyEndsWith "__" t = true) :
    (entityName t = "" ∨ entityName t = "_") ∧
    ∀ cols : List (String × ColumnInfo),
      (categorizeFields (entityName t) cols).foreign_keys = [] ∧
      ∀ ci ∈ cols, isDltColumn ci.1 = false → isSystemColumn ci.1 = false →
        endsWithId ci.1 = true →
        ci ∈ (categorizeFields (entityName t) cols).primary_keys := by
  have hent := entityName_of_sep_suffix h
  have hcontains : ∀ c : String, endsWithId c = true →
      pyContains (entityName t) c = true := by
    intro c hc
    rcases hent with he | he
    · rw [he]
      exact decide_eq_true List.nil_infix
    · rw [he]
      apply decide_eq_true
      have hid : ("_id".data : List Char) <:+ c.data := of_decide_eq_true hc
      obtain ⟨s, hs⟩ := hid
      have hmem : '_' ∈ c.data := by
        rw [← hs]
        exact List.mem_append.mpr (Or.inr (by decide))
      obtain ⟨s₁, s₂, hsplit⟩ := List.append_of_mem hmem
      refine ⟨s₁, s₂, ?_⟩
      have hd : ("_".data : List Char) = ['_'] := rfl
      rw [hsplit, hd, List.append_assoc, List.singleton_append]
  refine ⟨hent, fun cols => ⟨?_, fun ci hmem h1 h2 h3 => ?_⟩⟩
  · rw [categorizeFields_eq_filter]
    show List.filter (isFkCol (entityName t)) cols = []
    rw [List.filter_eq_nil_iff]
    intro ci hci
    cases hid : endsWithId ci.1 with
    | false => simp [isFkCol, hid]
    | true => simp [isFkCol, hid, hcontains ci.1 hid]
  · exact (mem_primary_iff _ _ _).mpr
      ⟨hmem, by simp [isPkCol, h1, h2, h3, hcontains ci.1 h3]⟩

/-- Witness for C10 (amended) at the table name `sales__`. -/
theorem c10_amended_witness :
    (entityName "sales__" = "" ∨ entityName "sales__" = "_") ∧
    ∀ cols : List (String × ColumnInfo),
      (categorizeFields (entityName "sales__") cols).foreign_keys = [] ∧
      ∀ ci ∈ cols, isDltColumn ci.1 = false → isSystemColumn ci.1 = false →
        endsWithId ci.1 = true →
        ci ∈ (categorizeFields (entityName "sales__") cols).primary_keys :=
  c10_amended "sales__" (by decide)

/- ### Path templating -/

/-- The constant prefix of every QVD target reference. -/
def qvdPathMarker : String := "$(val__qvd_path__das)/"

/-- The QVD target substring the spec tracks: `$(val__qvd_path__das)/{T}.qvd`
    (lines 64 and 239). -/
def qvdRef (t : String) : String := "$(val__qvd_path__das)/" ++ t ++ ".qvd"

/-- The parquet source substring the spec tracks: `das.{T}.parquet`
    (line 191). -/
def parquetRef (t : String) : String := "das." ++ t ++ ".parquet"

/-- Whether a generated line contains the QVD target substring. -/
def qvdRefLine (t : String) (l : String) : Bool :=
  decide ((qvdRef t).data <:+: l.data)

/-- No dollar sign anywhere in the string. -/
def noDollar (s : String) : Bool := decide ('$' ∉ s.data)

/-- A description that embeds no macro dollar and no single quote. -/
def cleanDesc : Option String → Bool
  | none => true
  | some d => decide ('$' ∉ d.data ∧ '\'' ∉ d.data)

/-- A column whose name and description cannot fake a macro reference. -/
def benignColumn (ci : String × ColumnInfo) : Bool :=
  noDollar ci.1 && cleanDesc ci.2.description

/-- A table definition all of whose free text is benign. -/
def benignTable (ti : TableInfo) : Bool :=
  cleanDesc ti.description &&
    (match ti.columns with
     | none => true
     | some cols => cols.all benignColumn)

theorem qvdRef_data (t : String) :
    (qvdRef t).data = qvdPathMarker.data ++ (t.data ++ ".qvd".data) := by
  simp [qvdRef, qvdPathMarker, String.data_append]

theorem dollar_mem_qvdRef (t : String) : '$' ∈ (qvdRef t).data := by
  rw [qvdRef_data]
  exact List.mem_append.mpr (Or.inl (by decide))

/-- A dollar-free line cannot contain the QVD target substring. -/
theorem qvdRefLine_false_of_noDollar {t l : String} (h : '$' ∉ l.data) :
    qvdRefLine t l = false := by
  apply decide_eq_false
  intro hin
  exact h (hin.subset (dollar_mem_qvdRef t))

/-- A line without the constant marker cannot contain the QVD target
    substring, whatever the table name. -/
theorem qvdRefLine_false_of_no_marker {t l : String}
    (h : ¬ qvdPathMarker.data <:+: l.data) : qvdRefLine t l = false := by
  apply decide_eq_false
  intro hin
  apply h
  have hpre : qvdPathMarker.data <+: (qvdRef t).data :=
    ⟨t.data ++ ".qvd".data, (qvdRef_data t).symm⟩
  exact hpre.isInfix.trans hin

/-- The variable-setup assignment contains the QVD target substring. -/
theorem qvdRefLine_letLine (t : String) :
    qvdRefLine t ("Let val__qvd_target = '$(val__qvd_path__das)/" ++ t ++ ".qvd';") =
      true := by
  apply decide_eq_true
  refine ⟨"Let val__qvd_target = '".data, "';".data, ?_⟩
  simp only [qvdRef, String.data_append, List.append_assoc, List.cons_append,
    List.nil_append]

/-- The Store statement contains the QVD target substring. -/
theorem qvdRefLine_storeLine (t : String) :
    qvdRefLine t
      ("    Store [" ++ t ++ "] Into [$(val__qvd_path__das)/" ++ t ++ ".qvd] (qvd);") =
      true := by
  apply decide_eq_true
  refine ⟨("    Store [" ++ t ++ "] Into [").data, "] (qvd);".data, ?_⟩
  simp only [qvdRef, String.data_append, List.append_assoc, List.cons_append,
    List.nil_append]

/-- The parquet source line contains the `das.{T}.parquet` substring. -/
theorem parquetRef_infix (t : String) :
    (parquetRef t).data <:+:
      ("    [lib://OneDrive - mattias.thalen@two.se/Qlik/Analytical Data Storage System/data/das." ++ t ++ ".parquet] (parquet)").data := by
  refine ⟨"    [lib://OneDrive - mattias.thalen@two.se/Qlik/Analytical Data Storage System/data/".data,
    "] (parquet)".data, ?_⟩
  simp only [parquetRef, String.data_append, List.append_assoc, List.cons_append,
    List.nil_append]

set_option maxRecDepth 100000 in
/-- C9 fails as stated: a column description that itself embeds the macro
    path produces a third comment line containing
    `$(val__qvd_path__das)/t.qvd`, so the substring does not occur exactly
    twice in that table's block. -/
theorem c9_counterexample :
    ((tableBlock "t"
        ⟨some [("c", ⟨some "x$(val__qvd_path__das)/t.qvd y"⟩)], none⟩).countP
      (qvdRefLine "t") = 3) ∧
    ¬ ((tableBlock "t"
        ⟨some [("c", ⟨some "x$(val__qvd_path__das)/t.qvd y"⟩)], none⟩).countP
      (qvdRefLine "t") = 2) := by
  constructor
  · decide
  · decide

theorem bool_not_true {b : Bool} (h : b = false) : ¬ b = true := by simp [h]

theorem noDollar_append {a b : String} (ha : '$' ∉ a.data) (hb : '$' ∉ b.data) :
    '$' ∉ (a ++ b).data := by
  intro hmem
  rw [String.data_append] at hmem
  rcases List.mem_append.mp hmem with h | h
  · exact ha h
  · exact hb h

theorem hashFieldsOf_noDollar : ∀ l : List (String × ColumnInfo),
    (∀ ci ∈ l, '$' ∉ ci.1.data) → ∀ s ∈ hashFieldsOf l, '$' ∉ s.data
  | [], _, s, hs => by simp [hashFieldsOf] at hs
  | [ci], h, s, hs => by
    simp only [hashFieldsOf, List.mem_singleton] at hs
    subst hs
    exact noDollar_append (noDollar_append (by decide) (h ci (by simp))) (by decide)
  | ci :: ci' :: rest, h, s, hs => by
    simp only [hashFieldsOf, List.mem_cons] at hs
    rcases hs with rfl | hs
    · exact noDollar_append (noDollar_append (by decide) (h ci (by simp))) (by decide)
    · exact hashFieldsOf_noDollar (ci' :: rest)
        (fun x hx => h x (List.mem_cons_of_mem ci hx)) s hs

theorem fieldLoadLinesOf_noDollar : ∀ l : List (String × ColumnInfo),
    (∀ ci ∈ l, '$' ∉ ci.1.data) → ∀ s ∈ fieldLoadLinesOf l, '$' ∉ s.data
  | [], _, s, hs => by simp [fieldLoadLinesOf] at hs
  | [ci], h, s, hs => by
    simp only [fieldLoadLinesOf, List.mem_singleton] at hs
    subst hs
    exact noDollar_append
      (noDollar_append
        (noDollar_append (noDollar_append (by decide) (h ci (by simp))) (by decide))
        (h ci (by simp)))
      (by decide)
  | ci :: ci' :: rest, h, s, hs => by
    simp only [fieldLoadLinesOf, List.mem_cons] at hs
    rcases hs with rfl | hs
    · exact noDollar_append
        (noDollar_append
          (noDollar_append (noDollar_append (by decide) (h ci (by simp))) (by decide))
          (h ci (by simp)))
        (by decide)
    · exact fieldLoadLinesOf_noDollar (ci' :: rest)
        (fun x hx => h x (List.mem_cons_of_mem ci hx)) s hs

theorem fieldCommentsOf_noDollar (l : List (String × ColumnInfo))
    (h : ∀ ci ∈ l, benignColumn ci = true) :
    ∀ s ∈ fieldCommentsOf l, '$' ∉ s.data := by
  intro s hs
  simp only [fieldCommentsOf, List.mem_filterMap] at hs
  obtain ⟨ci, hci, hmap⟩ := hs
  cases hd : ci.2.description with
  | none => rw [hd] at hmap; simp at hmap
  | some d =>
    rw [hd] at hmap
    simp only [Option.map_some', Option.some.injEq] at hmap
    subst hmap
    have hb := h ci hci
    rw [benignColumn, Bool.and_eq_true, hd] at hb
    obtain ⟨hname, hdesc⟩ := hb
    have hnameD : '$' ∉ ci.1.data := of_decide_eq_true hname
    have hdpair : '$' ∉ d.data ∧ '\'' ∉ d.data := of_decide_eq_true hdesc
    have hesc : escapeQuotes d = d :=
      escapeQuotes_id fun ch hch heq => hdpair.2 (heq ▸ hch)
    rw [fieldCommentLine, hesc]
    exact noDollar_append
      (noDollar_append
        (noDollar_append (noDollar_append (by decide) hnameD) (by decide))
        hdpair.1)
      (by decide)

theorem sortedColumnsOf_benign {t : String} {ti : TableInfo}
    (hB : benignTable ti = true) :
    ∀ ci ∈ sortedColumnsOf t ti, benignColumn ci = true := by
  intro ci hci
  cases hcol : ti.columns with
  | none => simp only [sortedColumnsOf, hcol, List.not_mem_nil] at hci
  | some cols =>
    simp only [sortedColumnsOf, hcol] at hci
    have hmem := mem_of_mem_sortedColumns hci
    simp only [benignTable, Bool.and_eq_true, hcol, List.all_eq_true] at hB
    exact hB.2 ci hmem

set_option maxRecDepth 1000000 in
/-- C9 (amended): for every table T whose name, column names and
    descriptions contain no dollar sign and whose descriptions contain no
    single quote, the generated table block contains the literal substring
    `das.{T}.parquet` (in the parquet source line), and exactly two of its
    lines contain the literal substring `$(val__qvd_path__das)/{T}.qvd`:
    the variable-setup assignment of `val__qvd_target` and the final Store
    statement, both present in the block with the same table name. -/
theorem c9_path_templating (t : String) (ti : TableInfo)
    (hT : noDollar t = true) (hB : benignTable ti = true) :
    (∃ l ∈ tableBlock t ti, (parquetRef t).data <:+: l.data) ∧
    (tableBlock t ti).countP (qvdRefLine t) = 2 ∧
    qvdRefLine t ("Let val__qvd_target = '$(val__qvd_path__das)/" ++ t ++ ".qvd';") =
      true ∧
    qvdRefLine t
      ("    Store [" ++ t ++ "] Into [$(val__qvd_path__das)/" ++ t ++ ".qvd] (qvd);") =
      true ∧
    ("Let val__qvd_target = '$(val__qvd_path__das)/" ++ t ++ ".qvd';") ∈
      tableBlock t ti ∧
    ("    Store [" ++ t ++ "] Into [$(val__qvd_path__das)/" ++ t ++ ".qvd] (qvd);") ∈
      tableBlock t ti := by
  have hTd : '$' ∉ t.data := of_decide_eq_true hT
  have hbc := sortedColumnsOf_benign (t := t) hB
  have hnames : ∀ ci ∈ sortedColumnsOf t ti, '$' ∉ ci.1.data := fun ci hci => by
    have hb := hbc ci hci
    rw [benignColumn, Bool.and_eq_true] at hb
    exact of_decide_eq_true hb.1
  have cBanner : (tableBannerLines t).countP (qvdRefLine t) = 0 := by
    rw [List.countP_eq_zero]
    intro l hl
    rw [tableBannerLines] at hl
    fin_cases hl <;>
      first
        | exact bool_not_true (qvdRefLine_false_of_no_marker (by decide))
        | exact bool_not_true (qvdRefLine_false_of_noDollar
            (noDollar_append (by decide) hTd))
        | exact bool_not_true (qvdRefLine_false_of_noDollar
            (noDollar_append (noDollar_append (by decide) hTd) (by decide)))
  have cVar : (varSetupLines t).countP (qvdRefLine t) = 1 := by
    have f1 : qvdRefLine t "Trace Setting variables...;" = false :=
      qvdRefLine_false_of_no_marker (by decide)
    have f2 := qvdRefLine_letLine t
    have f3 : qvdRefLine t
        "Let val__target_qvd_exists = Not IsNull(QvdCreateTime('$(val__qvd_target)'));" =
        false := qvdRefLine_false_of_no_marker (by decide)
    have f4 : qvdRefLine t "Let val__incremental_value = '1970-01-01';" = false :=
      qvdRefLine_false_of_no_marker (by decide)
    have f5 : qvdRefLine t "" = false := qvdRefLine_false_of_noDollar (by decide)
    simp [varSetupLines, List.countP_cons, f1, f2, f3, f4, f5]
  have cHashDef : hashTableDefLines.countP (qvdRefLine t) = 0 := by
    rw [List.countP_eq_zero]
    have hall : ∀ l ∈ hashTableDefLines, ¬ qvdPathMarker.data <:+: l.data := by decide
    intro l hl
    exact bool_not_true (qvdRefLine_false_of_no_marker (hall l hl))
  have cHist : historicalLoadLines.countP (qvdRefLine t) = 0 := by
    rw [List.countP_eq_zero]
    have hall : ∀ l ∈ historicalLoadLines, ¬ qvdPathMarker.data <:+: l.data := by
      decide
    intro l hl
    exact bool_not_true (qvdRefLine_false_of_no_marker (hall l hl))
  have cHash : (hashCalcLines (hashFieldsOf (sortedColumnsOf t ti))).countP
      (qvdRefLine t) = 0 := by
    rw [List.countP_eq_zero]
    intro l hl
    rw [hashCalcLines] at hl
    rcases List.mem_cons.mp hl with rfl | hl
    · exact bool_not_true (qvdRefLine_false_of_no_marker (by decide))
    rcases List.mem_cons.mp hl with rfl | hl
    · exact bool_not_true (qvdRefLine_false_of_no_marker (by decide))
    rcases List.mem_append.mp hl with hl | hl
    · exact bool_not_true (qvdRefLine_false_of_noDollar
        (hashFieldsOf_noDollar _ hnames l hl))
    · fin_cases hl <;>
        exact bool_not_true (qvdRefLine_false_of_no_marker (by decide))
  have cLoad : (tableLoadLines t).countP (qvdRefLine t) = 0 := by
    rw [List.countP_eq_zero]
    intro l hl
    rw [tableLoadLines] at hl
    fin_cases hl <;>
      first
        | exact bool_not_true (qvdRefLine_false_of_no_marker (by decide))
        | exact bool_not_true (qvdRefLine_false_of_noDollar
            (noDollar_append (noDollar_append (by decide) hTd) (by decide)))
  have cFieldLoad : (fieldLoadSection t (fieldLoadLinesOf (sortedColumnsOf t ti))).countP
      (qvdRefLine t) = 0 := by
    rw [List.countP_eq_zero]
    intro l hl
    rw [fieldLoadSection] at hl
    rcases List.mem_cons.mp hl with rfl | hl
    · exact bool_not_true (qvdRefLine_false_of_no_marker (by decide))
    rcases List.mem_append.mp hl with hl | hl
    · exact bool_not_true (qvdRefLine_false_of_noDollar
        (fieldLoadLinesOf_noDollar _ hnames l hl))
    · fin_cases hl <;>
        first
          | exact bool_not_true (qvdRefLine_false_of_no_marker (by decide))
          | exact bool_not_true (qvdRefLine_false_of_noDollar
              (noDollar_append (noDollar_append (by decide) hTd) (by decide)))
  have cCleanup : (cleanupCountLines t).countP (qvdRefLine t) = 0 := by
    rw [List.countP_eq_zero]
    intro l hl
    rw [cleanupCountLines] at hl
    fin_cases hl <;>
      first
        | exact bool_not_true (qvdRefLine_false_of_no_marker (by decide))
        | exact bool_not_true (qvdRefLine_false_of_noDollar
            (noDollar_append (noDollar_append (by decide) hTd) (by decide)))
  have cComment : (tableCommentSection t ti).countP (qvdRefLine t) = 0 := by
    cases hd : ti.description with
    | none => simp [tableCommentSection, hd]
    | some d =>
      have hcd : '$' ∉ d.data ∧ '\'' ∉ d.data := by
        have h1 : cleanDesc ti.description = true := by
          rw [benignTable, Bool.and_eq_true] at hB
          exact hB.1
        rw [hd] at h1
        exact of_decide_eq_true h1
      have hesc : escapeQuotes d = d :=
        escapeQuotes_id fun ch hch heq => hcd.2 (heq ▸ hch)
      have fc : qvdRefLine t (tableCommentLine t d) = false := by
        rw [tableCommentLine, hesc]
        exact qvdRefLine_false_of_noDollar
          (noDollar_append
            (noDollar_append
              (noDollar_append (noDollar_append (by decide) hTd) (by decide)) hcd.1)
            (by decide))
      have f1 : qvdRefLine t "    Trace Commenting table...;" = false :=
        qvdRefLine_false_of_no_marker (by decide)
      have f5 : qvdRefLine t "" = false := qvdRefLine_false_of_noDollar (by decide)
      simp [tableCommentSection, hd, List.countP_cons, f1, fc, f5]
  have cFieldCGen : ∀ comments : List String, (∀ c ∈ comments, '$' ∉ c.data) →
      (fieldCommentSection comments).countP (qvdRefLine t) = 0 := by
    intro comments hc
    cases comments with
    | nil => rfl
    | cons c cs =>
      rw [List.countP_eq_zero]
      intro l hl
      rcases List.mem_cons.mp hl with rfl | hl
      · exact bool_not_true (qvdRefLine_false_of_no_marker (by decide))
      rcases List.mem_append.mp hl with hl | hl
      · obtain ⟨x, hx, rfl⟩ := List.mem_map.mp hl
        exact bool_not_true (qvdRefLine_false_of_noDollar
          (noDollar_append (by decide) (hc x hx)))
      · rcases List.mem_singleton.mp hl with rfl
        exact bool_not_true (qvdRefLine_false_of_noDollar (by decide))
  have cFieldC := cFieldCGen (fieldCommentsOf (sortedColumnsOf t ti))
    (fieldCommentsOf_noDollar _ hbc)
  have cStore : (storeResetLines t).countP (qvdRefLine t) = 1 := by
    have fTrace : qvdRefLine t "    Trace Storing data...;" = false :=
      qvdRefLine_false_of_no_marker (by decide)
    have fStore := qvdRefLine_storeLine t
    have fEmpty : qvdRefLine t "" = false := qvdRefLine_false_of_noDollar (by decide)
    have fElse : qvdRefLine t "Else" = false :=
      qvdRefLine_false_of_no_marker (by decide)
    have fNoNew : qvdRefLine t "    Trace No new records loaded...;" = false :=
      qvdRefLine_false_of_no_marker (by decide)
    have fEndIf : qvdRefLine t "End If" = false :=
      qvdRefLine_false_of_no_marker (by decide)
    have fTraceDrop : qvdRefLine t "Trace Dropping table...;" = false :=
      qvdRefLine_false_of_no_marker (by decide)
    have fDrop : qvdRefLine t ("Drop Table [" ++ t ++ "];") = false :=
      qvdRefLine_false_of_noDollar
        (noDollar_append (noDollar_append (by decide) hTd) (by decide))
    have fReset : resetLines.countP (qvdRefLine t) = 0 := by
      rw [List.countP_eq_zero]
      have hall : ∀ l ∈ resetLines, ¬ qvdPathMarker.data <:+: l.data := by decide
      intro l hl
      exact bool_not_true (qvdRefLine_false_of_no_marker (hall l hl))
    simp [storeResetLines, List.countP_append, List.countP_cons, fTrace, fStore,
      fEmpty, fElse, fNoNew, fEndIf, fTraceDrop, fDrop, fReset]
  refine ⟨⟨_, ?_, parquetRef_infix t⟩, ?_, qvdRefLine_letLine t,
    qvdRefLine_storeLine t, ?_, ?_⟩
  · simp [tableBlock, fieldLoadSection]
  · simp only [tableBlock, List.countP_append]
    rw [cBanner, cVar, cHashDef, cHist, cHash, cLoad, cFieldLoad, cCleanup,
      cComment, cFieldC, cStore]
  · simp [tableBlock, varSetupLines]
  · simp [tableBlock, storeResetLines]

/-- Witness for C9 (amended) at the table `sales__customer`. -/
theorem c9_path_templating_witness :
    (tableBlock "sales__customer"
        ⟨some [("customer_id", ⟨some "Customer key"⟩)], some "Customer data"⟩).countP
      (qvdRefLine "sales__customer") = 2 :=
  (c9_path_templating "sales__customer"
    ⟨some [("customer_id", ⟨some "Customer key"⟩)], some "Customer data"⟩
    (by decide) (by decide)).2.1
